import Mathlib

/-!
Verification of the amebaz2 firmware image codec.

This file gives a shallow embedding of the byte-level codec of the
amebaz2 repository (partition table, image headers, firmware security
table, sections, sub-images and OTA images) and proves properties of it.

Conventions of the embedding:
* a byte is a Nat (writers of u8 fields reduce modulo 256 exactly where
  the Rust type system guarantees the value already fits);
* multi-byte integers are little-endian, u16/u32 arithmetic is modelled
  with explicit Nat arithmetic and a final reduction modulo 2 to the 16
  or 32 where the Rust code computes in a machine integer type;
* a writer is pure: a write operation returns the list of bytes it
  appends to the stream (all writers of this codec only ever append);
  write operations that depend on the stream position (alignment
  padding) take the absolute start position as an argument;
* a reader is a function from the input byte list and a position to
  Except Err (value, new position); read_exact needs the requested
  bytes to be present, seeks may move beyond the end of the input;
* hash primitives (MD5/SHA-256 and their HMACs) are external
  collaborators and are passed in as an explicit oracle;
* a Rust panic (arithmetic underflow in a usize subtraction) is
  modelled by the distinguished error value Err.panicked.
-/

/-- Error type mirroring the crate error enum, restricted to the variants
the embedded operations can produce. Err.eof stands for the IOError
produced by a failing read_exact; Err.panicked marks a Rust panic. -/
inductive Err where
  | unknownImageType (msg : String)
  | unknownSectionType (msg : String)
  | invalidEnumValue (msg : String)
  | eof
  | unsupportedHashAlgo (v : Nat)
  | notImplemented (msg : String)
  | invalidState (msg : String)
  | panicked (msg : String)
  deriving Repr, DecidableEq

/-- Converts a Bool flag to the byte the Rust cast (b as u8) produces. -/
def b2n (b : Bool) : Nat := if b then 1 else 0

/-- Little-endian encoding of a u16 value. -/
def u16le (v : Nat) : List Nat := [v % 256, v / 256 % 256]

/-- Little-endian encoding of a u32 value. -/
def u32le (v : Nat) : List Nat :=
  [v % 256, v / 256 % 256, v / 65536 % 256, v / 16777216 % 256]

/-- Little-endian value of a byte list (first byte is least significant). -/
def leNat : List Nat → Nat
  | [] => 0
  | b :: rest => b + 256 * leNat rest

/-- The is_valid_data macro of the crate: true iff any byte differs from 0xFF. -/
def is_valid_data (l : List Nat) : Bool := l.any (fun x => x != 0xFF)

/-- The write_data macro: the key bytes when present, n bytes of 0xFF padding
when absent. -/
def write_data (k : Option (List Nat)) (n : Nat) : List Nat :=
  match k with
  | some key => key
  | none => List.replicate n 0xFF

/-- The optional variant of the write_aligned macro: padding bytes filling the
stream from position pos up to the next multiple of a (empty when aligned). -/
def padTo (pos a fill : Nat) : List Nat :=
  if pos % a = 0 then [] else List.replicate (a - pos % a) fill

/-- skip_aligned / write_aligned target position: pos rounded up to the next
multiple of a, with no change when pos is already aligned. -/
def alignUp (a pos : Nat) : Nat :=
  if pos % a = 0 then pos else pos + (a - pos % a)

/- ----------------------------------------------------------------- -/
/- Enums (types/enums.rs)                                            -/
/- ----------------------------------------------------------------- -/

/-- Image type enum of the crate (13 variants). -/
inductive ImageType where
  | Parttab | Boot | FHWSS | FHWSNS | FWLS | Isp | Voe | Wln
  | Xip | Wowln | Cinit | Cpfw | Unknown
  deriving Repr, DecidableEq

/-- The u8 discriminant of an ImageType (Unknown is 0x3F). -/
def ImageType.toU8 : ImageType → Nat
  | .Parttab => 0 | .Boot => 1 | .FHWSS => 2 | .FHWSNS => 3
  | .FWLS => 4 | .Isp => 5 | .Voe => 6 | .Wln => 7
  | .Xip => 8 | .Wowln => 9 | .Cinit => 10 | .Cpfw => 11
  | .Unknown => 0x3F

/-- TryFrom of u8 for ImageType. -/
def ImageType.tryFrom (v : Nat) : Except Err ImageType :=
  match v with
  | 0 => .ok .Parttab | 1 => .ok .Boot | 2 => .ok .FHWSS | 3 => .ok .FHWSNS
  | 4 => .ok .FWLS | 5 => .ok .Isp | 6 => .ok .Voe | 7 => .ok .Wln
  | 8 => .ok .Xip | 9 => .ok .Wowln | 10 => .ok .Cinit | 11 => .ok .Cpfw
  | 0x3F => .ok .Unknown
  | _ => .error (.unknownImageType ("Invalid image type: " ++ toString v))

/-- Section type enum (0x80 to 0x85). -/
inductive SectionType where
  | DTCM | ITCM | SRAM | PSRAM | LPDDR | XIP
  deriving Repr, DecidableEq

/-- The u8 discriminant of a SectionType. -/
def SectionType.toU8 : SectionType → Nat
  | .DTCM => 0x80 | .ITCM => 0x81 | .SRAM => 0x82
  | .PSRAM => 0x83 | .LPDDR => 0x84 | .XIP => 0x85

/-- TryFrom of u8 for SectionType. -/
def SectionType.tryFrom (v : Nat) : Except Err SectionType :=
  match v with
  | 0x80 => .ok .DTCM | 0x81 => .ok .ITCM | 0x82 => .ok .SRAM
  | 0x83 => .ok .PSRAM | 0x84 => .ok .LPDDR | 0x85 => .ok .XIP
  | _ => .error (.unknownSectionType ("Invalid section type: " ++ toString v))

/-- XIP page remap size enum (0, 1, 2). -/
inductive XipPageRemapSize where
  | s16K | s32K | s64K
  deriving Repr, DecidableEq

/-- The u8 discriminant of a XipPageRemapSize. -/
def XipPageRemapSize.toU8 : XipPageRemapSize → Nat
  | .s16K => 0 | .s32K => 1 | .s64K => 2

/-- TryFrom of u8 for XipPageRemapSize. -/
def XipPageRemapSize.tryFrom (v : Nat) : Except Err XipPageRemapSize :=
  match v with
  | 0 => .ok .s16K | 1 => .ok .s32K | 2 => .ok .s64K
  | _ => .error (.invalidEnumValue ("Invalid XIP page remap size: " ++ toString v))

/-- Encryption algorithm enum (u16 repr: 0, 1, 0xFF). -/
inductive EncryptionAlgo where
  | Ecb | Cbc | Other
  deriving Repr, DecidableEq

/-- The u16 discriminant of an EncryptionAlgo. -/
def EncryptionAlgo.toU16 : EncryptionAlgo → Nat
  | .Ecb => 0 | .Cbc => 1 | .Other => 0xFF

/-- TryFrom of u16 for EncryptionAlgo. -/
def EncryptionAlgo.tryFrom (v : Nat) : Except Err EncryptionAlgo :=
  match v with
  | 0 => .ok .Ecb | 1 => .ok .Cbc | 0xFF => .ok .Other
  | _ => .error (.invalidEnumValue ("Invalid encryption algorithm: " ++ toString v))

/-- Hash algorithm enum (u16 repr: 0, 1, 0xFF). -/
inductive HashAlgo where
  | Md5 | Sha256 | Other
  deriving Repr, DecidableEq

/-- The u16 discriminant of a HashAlgo. -/
def HashAlgo.toU16 : HashAlgo → Nat
  | .Md5 => 0 | .Sha256 => 1 | .Other => 0xFF

/-- TryFrom of u16 for HashAlgo. -/
def HashAlgo.tryFrom (v : Nat) : Except Err HashAlgo :=
  match v with
  | 0 => .ok .Md5 | 1 => .ok .Sha256 | 0xFF => .ok .Other
  | _ => .error (.invalidEnumValue ("Invalid hash algorithm: " ++ toString v))

/-- Partition type enum (0 to 9). -/
inductive PartitionType where
  | PartTab | Boot | Fw1 | Fw2 | Sys | Cal | User | Var | MP | Rdp
  deriving Repr, DecidableEq

/-- The u8 discriminant of a PartitionType. -/
def PartitionType.toU8 : PartitionType → Nat
  | .PartTab => 0 | .Boot => 1 | .Fw1 => 2 | .Fw2 => 3 | .Sys => 4
  | .Cal => 5 | .User => 6 | .Var => 7 | .MP => 8 | .Rdp => 9

/-- TryFrom of u8 for PartitionType. -/
def PartitionType.tryFrom (v : Nat) : Except Err PartitionType :=
  match v with
  | 0 => .ok .PartTab | 1 => .ok .Boot | 2 => .ok .Fw1 | 3 => .ok .Fw2
  | 4 => .ok .Sys | 5 => .ok .Cal | 6 => .ok .User | 7 => .ok .Var
  | 8 => .ok .MP | 9 => .ok .Rdp
  | _ => .error (.invalidEnumValue ("Invalid partition type: " ++ toString v))

/-- Key export operation enum (0, 1, 2). -/
inductive KeyExportOp where
  | None | Latest | Both
  deriving Repr, DecidableEq

/-- The u8 discriminant of a KeyExportOp. -/
def KeyExportOp.toU8 : KeyExportOp → Nat
  | .None => 0 | .Latest => 1 | .Both => 2

/-- TryFrom of u8 for KeyExportOp. -/
def KeyExportOp.tryFrom (v : Nat) : Except Err KeyExportOp :=
  match v with
  | 0 => .ok .None | 1 => .ok .Latest | 2 => .ok .Both
  | _ => .error (.invalidEnumValue ("Invalid key export type: " ++ toString v))

/- ----------------------------------------------------------------- -/
/- Fixed-size structures and their writers (types/header.rs,         -/
/- amebazii/types/fst.rs, amebazii/types/image/pt.rs Record)         -/
/- ----------------------------------------------------------------- -/

/-- KeyBlock: two raw 32-byte public keys. -/
structure KeyBlock where
  enc_pubkey : List Nat
  hash_pubkey : List Nat
  deriving Repr, DecidableEq

/-- Well-formedness of a KeyBlock value: both keys are 32 bytes, as in the
Rust type u8 32-arrays. -/
def KeyBlock.wf (k : KeyBlock) : Prop :=
  k.enc_pubkey.length = 32 ∧ k.hash_pubkey.length = 32

instance (k : KeyBlock) : Decidable k.wf := by unfold KeyBlock.wf; infer_instance

/-- KeyBlock::binary_size. -/
def KeyBlock.binary_size : Nat := 64

/-- KeyBlock::write_to: both keys, in order. -/
def KeyBlock.write_to (k : KeyBlock) : List Nat :=
  k.enc_pubkey ++ k.hash_pubkey

/-- Generic image header (96-byte layout). -/
structure ImageHeader where
  segment_size : Nat
  next_offset : Nat
  img_type : ImageType
  is_encrypt : Bool
  serial : Nat
  user_key1 : List Nat
  user_key2 : List Nat
  deriving Repr, DecidableEq

/-- Well-formedness of an ImageHeader value: u32 fields fit and the two user
keys are 32 bytes. -/
def ImageHeader.wf (h : ImageHeader) : Prop :=
  h.user_key1.length = 32 ∧ h.user_key2.length = 32

instance (h : ImageHeader) : Decidable h.wf := by unfold ImageHeader.wf; infer_instance

/-- ImageHeader::binary_size. -/
def ImageHeader.binary_size : Nat := 0x60

/-- ImageHeader::is_key1_valid: key1 is not all 0xFF. -/
def ImageHeader.is_key1_valid (h : ImageHeader) : Bool := is_valid_data h.user_key1

/-- ImageHeader::is_key2_valid: key2 is not all 0xFF. -/
def ImageHeader.is_key2_valid (h : ImageHeader) : Bool := is_valid_data h.user_key2

/-- ImageHeader::has_next: the next_offset field is not the 0xFFFFFFFF sentinel. -/
def ImageHeader.has_next (h : ImageHeader) : Bool := h.next_offset != 0xFFFFFFFF

/-- ImageHeader::write_to: sizes and offsets, type/encrypt bytes, a zero
byte, the key-validity flags byte, reserved 0xFF runs, serial, and both
user keys (always written, sentinel bytes when invalid). -/
def ImageHeader.write_to (h : ImageHeader) : List Nat :=
  u32le h.segment_size ++ u32le h.next_offset
    ++ [h.img_type.toU8] ++ [b2n h.is_encrypt] ++ [0x00]
    ++ [b2n h.is_key1_valid ||| (b2n h.is_key2_valid <<< 1)]
    ++ List.replicate 8 0xFF ++ u32le h.serial ++ List.replicate 8 0xFF
    ++ h.user_key1 ++ h.user_key2

/-- Sub-image section header (declared 96-byte layout). -/
structure SectionHeader where
  length : Nat
  next_offset : Nat
  sect_type : SectionType
  sce_enabled : Bool
  xip_page_size : XipPageRemapSize
  xip_block_size : Nat
  valid_pattern : List Nat
  xip_key : List Nat
  xip_iv : List Nat
  deriving Repr, DecidableEq

/-- Well-formedness of a SectionHeader: pattern is 8 bytes, key and IV are
16 bytes each. -/
def SectionHeader.wf (s : SectionHeader) : Prop :=
  s.valid_pattern.length = 8 ∧ s.xip_key.length = 16 ∧ s.xip_iv.length = 16

instance (s : SectionHeader) : Decidable s.wf := by unfold SectionHeader.wf; infer_instance

/-- SectionHeader::binary_size (0x60 = 96). -/
def SectionHeader.binary_size : Nat := 0x60

/-- SectionHeader::has_next. -/
def SectionHeader.has_next (s : SectionHeader) : Bool := s.next_offset != 0xFFFFFFFF

/-- SectionHeader::xip_key_iv_valid: both key and IV are not all 0xFF. -/
def SectionHeader.xip_key_iv_valid (s : SectionHeader) : Bool :=
  is_valid_data s.xip_key && is_valid_data s.xip_iv

/-- SectionHeader::write_to, exactly the writes the source performs: it ends
after xip_iv and never emits the trailing 32 alignment bytes of the declared
layout. -/
def SectionHeader.write_to (s : SectionHeader) : List Nat :=
  u32le s.length ++ u32le s.next_offset
    ++ [s.sect_type.toU8] ++ [b2n s.sce_enabled]
    ++ [s.xip_page_size.toU8] ++ [s.xip_block_size % 256]
    ++ List.replicate 4 0xFF ++ s.valid_pattern
    ++ [b2n s.xip_key_iv_valid] ++ List.replicate 7 0xFF
    ++ s.xip_key ++ s.xip_iv

/-- Entry header (32-byte layout). -/
structure EntryHeader where
  length : Nat
  load_address : Nat
  entry_address : Option Nat
  deriving Repr, DecidableEq

/-- EntryHeader::binary_size (0x20 = 32). -/
def EntryHeader.binary_size : Nat := 0x20

/-- EntryHeader::write_to: length, load address, entry address with the
0xFFFFFFFF sentinel for None, and 20 bytes of 0xFF. -/
def EntryHeader.write_to (e : EntryHeader) : List Nat :=
  u32le e.length ++ u32le e.load_address
    ++ u32le (e.entry_address.getD 0xFFFFFFFF) ++ List.replicate 20 0xFF

/-- Firmware security table (96-byte layout). -/
structure FST where
  enc_algo : Option EncryptionAlgo
  hash_algo : Option HashAlgo
  partition_size : Nat
  valid_pattern : List Nat
  cipher_key : Option (List Nat)
  cipher_iv : Option (List Nat)
  deriving Repr, DecidableEq

/-- Well-formedness of an FST: pattern is 8 bytes, cipher key 32 bytes and
cipher IV 16 bytes when present. -/
def FST.wf (f : FST) : Prop :=
  f.valid_pattern.length = 8
    ∧ (∀ k, f.cipher_key = some k → k.length = 32)
    ∧ (∀ iv, f.cipher_iv = some iv → iv.length = 16)

instance (f : FST) : Decidable f.wf := by
  unfold FST.wf
  have h1 : Decidable (∀ k, f.cipher_key = some k → k.length = 32) := by
    cases hk : f.cipher_key with
    | none => exact .isTrue (by intro k hkk; simp at hkk)
    | some k =>
      by_cases hl : k.length = 32
      · exact .isTrue (by intro k' hkk; cases hkk; exact hl)
      · exact .isFalse (by intro hall; exact hl (hall k rfl))
  have h2 : Decidable (∀ iv, f.cipher_iv = some iv → iv.length = 16) := by
    cases hk : f.cipher_iv with
    | none => exact .isTrue (by intro k hkk; simp at hkk)
    | some iv =>
      by_cases hl : iv.length = 16
      · exact .isTrue (by intro k' hkk; cases hkk; exact hl)
      · exact .isFalse (by intro hall; exact hl (hall iv rfl))
  exact instDecidableAnd

/-- FST::binary_size (0x60 = 96). -/
def FST.binary_size : Nat := 0x60

/-- FST::is_cipher_key_iv_valid: both present and not all 0xFF. -/
def FST.is_cipher_key_iv_valid (f : FST) : Bool :=
  match f.cipher_key, f.cipher_iv with
  | some k, some iv => is_valid_data k && is_valid_data iv
  | _, _ => false

/-- FST::write_to: algorithms (0 when None), partition size, pattern, 4
padding bytes, the 2-bit flags byte, the key-validity byte, 10 padding
bytes, cipher key and IV (sentinel-padded when absent) and 16 final
padding bytes. -/
def FST.write_to (f : FST) : List Nat :=
  u16le (f.enc_algo.getD .Ecb).toU16 ++ u16le (f.hash_algo.getD .Md5).toU16
    ++ u32le f.partition_size ++ f.valid_pattern
    ++ List.replicate 4 0xFF
    ++ [((if f.enc_algo.isSome then 1 else 0) ||| (if f.hash_algo.isSome then 2 else 0)) &&& 3]
    ++ [b2n f.is_cipher_key_iv_valid]
    ++ List.replicate 10 0xFF
    ++ write_data f.cipher_key 32 ++ write_data f.cipher_iv 16
    ++ List.replicate 16 0xFF

/-- Firmware partition record (64-byte layout). -/
structure Record where
  start_addr : Nat
  length : Nat
  part_type : PartitionType
  dbg_skip : Bool
  hash_key : Option (List Nat)
  deriving Repr, DecidableEq

/-- Well-formedness of a Record: the hash key is 32 bytes when present. -/
def Record.wf (r : Record) : Prop :=
  ∀ k, r.hash_key = some k → k.length = 32

instance (r : Record) : Decidable r.wf := by
  unfold Record.wf
  cases hk : r.hash_key with
  | none => exact .isTrue (by intro k hkk; simp at hkk)
  | some k =>
    by_cases hl : k.length = 32
    · exact .isTrue (by intro k' hkk; cases hkk; exact hl)
    · exact .isFalse (by intro hall; exact hl (hall k rfl))

/-- Record::binary_size (0x40 = 64). -/
def Record.binary_size : Nat := 0x40

/-- Record::hash_key_valid: present and not all 0xFF. -/
def Record.hash_key_valid (r : Record) : Bool :=
  match r.hash_key with
  | none => false
  | some k => is_valid_data k

/-- Record::write_to: addresses, type and debug bytes, 6 padding bytes, the
key-validity byte, 15 padding bytes and the 32-byte key slot. -/
def Record.write_to (r : Record) : List Nat :=
  u32le r.start_addr ++ u32le r.length
    ++ [r.part_type.toU8] ++ [b2n r.dbg_skip]
    ++ List.replicate 6 0xFF ++ [b2n r.hash_key_valid]
    ++ List.replicate 15 0xFF ++ write_data r.hash_key 32

/- ----------------------------------------------------------------- -/
/- Basic length lemmas                                               -/
/- ----------------------------------------------------------------- -/

@[simp] theorem u32le_length (v : Nat) : (u32le v).length = 4 := rfl

@[simp] theorem u16le_length (v : Nat) : (u16le v).length = 2 := rfl

theorem write_data_length (k : Option (List Nat)) (n : Nat)
    (h : ∀ l, k = some l → l.length = n) : (write_data k n).length = n := by
  cases hk : k with
  | none => simp [write_data]
  | some l => simpa [write_data] using h l hk

/- ----------------------------------------------------------------- -/
/- C1: fixed-size encodings                                          -/
/- ----------------------------------------------------------------- -/

/-- Sample values used to evaluate the fixed-size encoders (the Rust
Default instances). -/
def sampleKeyBlock : KeyBlock :=
  { enc_pubkey := List.replicate 32 0xFF, hash_pubkey := List.replicate 32 0xFF }

/-- Sample Record (the Rust Default). -/
def sampleRecord : Record :=
  { start_addr := 0, length := 0, part_type := .PartTab, dbg_skip := false,
    hash_key := none }

/-- Sample FST (the Rust Default). -/
def sampleFST : FST :=
  { enc_algo := none, hash_algo := some .Sha256, partition_size := 0,
    valid_pattern := [0x9F, 0x9B, 0xAD, 0xAD, 0x9F, 0x9B, 0xAD, 0xAD],
    cipher_key := none, cipher_iv := none }

/-- Sample ImageHeader (the Rust Default). -/
def sampleImageHeader : ImageHeader :=
  { segment_size := 0, next_offset := 0xFFFFFFFF, img_type := .Parttab,
    is_encrypt := false, serial := 0xFFFFFFFF,
    user_key1 := List.replicate 32 0xFF, user_key2 := List.replicate 32 0xFF }

/-- Sample EntryHeader (the Rust Default). -/
def sampleEntryHeader : EntryHeader :=
  { length := 0, load_address := 0, entry_address := none }

/-- Sample SectionHeader (the Rust Default). -/
def sampleSectionHeader : SectionHeader :=
  { length := 0, next_offset := 0xFFFFFFFF, sect_type := .XIP,
    sce_enabled := false, xip_page_size := .s16K, xip_block_size := 0,
    valid_pattern := [0, 1, 2, 3, 4, 5, 6, 7],
    xip_key := List.replicate 16 0xFF, xip_iv := List.replicate 16 0xFF }

/-- C1: the fixed-size invariant encode-length = binary_size holds for
KeyBlock (64), Record (64), FST (96), ImageHeader (96) and EntryHeader (32),
for every well-formed value; it FAILS for SectionHeader, whose write_to
emits only 64 bytes (it never writes the trailing 32 alignment bytes of its
own declared 0x60 layout) while SectionHeader::binary_size returns 96 and
SectionHeader::read_from consumes 96 — in particular at the Default value. -/
theorem fixed_size_encode_lengths :
    (∀ k : KeyBlock, k.wf → k.write_to.length = KeyBlock.binary_size)
    ∧ (∀ r : Record, r.wf → r.write_to.length = Record.binary_size)
    ∧ (∀ f : FST, f.wf → f.write_to.length = FST.binary_size)
    ∧ (∀ h : ImageHeader, h.wf → h.write_to.length = ImageHeader.binary_size)
    ∧ (∀ e : EntryHeader, e.write_to.length = EntryHeader.binary_size)
    ∧ (∀ s : SectionHeader, s.wf → s.write_to.length = 64)
    ∧ sampleSectionHeader.write_to.length = 64
    ∧ SectionHeader.binary_size = 96 := by
  refine ⟨?_, ?_, ?_, ?_, ?_, ?_, ?_, rfl⟩
  · rintro k ⟨h1, h2⟩
    simp [KeyBlock.write_to, KeyBlock.binary_size, h1, h2]
  · intro r hr
    have hk := write_data_length r.hash_key 32 hr
    simp [Record.write_to, Record.binary_size, hk]
  · rintro f ⟨hp, hk, hiv⟩
    have h1 := write_data_length f.cipher_key 32 hk
    have h2 := write_data_length f.cipher_iv 16 hiv
    simp [FST.write_to, FST.binary_size, hp, h1, h2]
  · rintro h ⟨h1, h2⟩
    simp [ImageHeader.write_to, ImageHeader.binary_size, h1, h2]
  · intro e
    simp [EntryHeader.write_to, EntryHeader.binary_size]
  · rintro s ⟨h1, h2, h3⟩
    simp [SectionHeader.write_to, h1, h2, h3]
  · decide

/-- Witness for the C1 theorem at concrete inputs. -/
theorem fixed_size_encode_lengths_witness :
    sampleKeyBlock.write_to.length = KeyBlock.binary_size
    ∧ sampleRecord.write_to.length = Record.binary_size
    ∧ sampleFST.write_to.length = FST.binary_size
    ∧ sampleImageHeader.write_to.length = ImageHeader.binary_size
    ∧ sampleEntryHeader.write_to.length = EntryHeader.binary_size
    ∧ sampleSectionHeader.write_to.length = 64 :=
  ⟨fixed_size_encode_lengths.1 sampleKeyBlock (by decide),
   fixed_size_encode_lengths.2.1 sampleRecord (by decide),
   fixed_size_encode_lengths.2.2.1 sampleFST (by decide),
   fixed_size_encode_lengths.2.2.2.1 sampleImageHeader (by decide),
   fixed_size_encode_lengths.2.2.2.2.1 sampleEntryHeader,
   fixed_size_encode_lengths.2.2.2.2.2.1 sampleSectionHeader (by decide)⟩

/- ----------------------------------------------------------------- -/
/- TrapConfig (amebazii/types/image/pt.rs)                           -/
/- ----------------------------------------------------------------- -/

/-- Packed hardware trap configuration: bit 15 valid, bit 8 level,
bits 5-7 port, bits 0-4 pin. -/
structure TrapConfig where
  valid : Bool
  level : Nat
  port : Nat
  pin : Nat
  deriving Repr, DecidableEq

/-- From of u16 for TrapConfig: total unpacking of the bit fields. -/
def TrapConfig.fromU16 (v : Nat) : TrapConfig :=
  { valid := (v >>> 15) &&& 0x1 != 0
    level := (v >>> 8) &&& 0x1
    port := (v >>> 5) &&& 7
    pin := v &&& 0x1F }

/-- Into of u16 for TrapConfig: packing of the bit fields. -/
def TrapConfig.toU16 (t : TrapConfig) : Nat :=
  (b2n t.valid <<< 15) ||| (t.level <<< 8) ||| (t.port <<< 5) ||| t.pin

/- ----------------------------------------------------------------- -/
/- PartTab, PartitionTableImage (amebazii/types/image/pt.rs)         -/
/- ----------------------------------------------------------------- -/

/-- Either an opaque encrypted byte blob or a plain decoded value. -/
inductive EncryptedOr (T : Type) where
  | Encrypted (data : List Nat)
  | Plain (t : T)
  deriving Repr, DecidableEq

/-- EncryptedOr::is_encrypted. -/
def EncryptedOr.is_encrypted {T : Type} : EncryptedOr T → Bool
  | .Encrypted _ => true
  | .Plain _ => false

/-- The flash partition table. -/
structure PartTab where
  rma_w_state : Nat
  rma_ov_state : Nat
  eFWV : Nat
  fw1_idx : Nat
  fw2_idx : Nat
  ota_trap : TrapConfig
  mp_trap : TrapConfig
  key_exp_op : KeyExportOp
  user_ext : List Nat
  records : List Record
  user_bin : List Nat
  deriving Repr, DecidableEq

/-- PartTab::write_to. The writer is pure, so the result is the pair of the
bytes emitted before returning and the error, if any: the source writes the
first four bytes (rma_w_state, rma_ov_state, eFWV and a zero byte) before
checking for an empty record list, and in the error case returns with
exactly those four bytes already written. -/
def PartTab.write_to (pt : PartTab) : List Nat × Option Err :=
  let head := [pt.rma_w_state % 256, pt.rma_ov_state % 256, pt.eFWV % 256, 0x00]
  if pt.records.isEmpty then
    (head, some (.invalidState "Empty partition table"))
  else
    (head
      ++ [(pt.records.length - 1) % 256, pt.fw1_idx % 256, pt.fw2_idx % 256]
      ++ List.replicate 3 0xFF
      ++ u16le pt.ota_trap.toU16 ++ u16le pt.mp_trap.toU16
      ++ [0xFF] ++ [pt.key_exp_op.toU8]
      ++ u32le pt.user_bin.length
      ++ pt.user_ext
      ++ (pt.records.map Record.write_to).flatten
      ++ pt.user_bin,
     none)

/-- The partition table image: key block, image header, encrypted-or-plain
partition table and trailing hash. -/
structure PartitionTableImage where
  keyblock : KeyBlock
  header : ImageHeader
  pt : EncryptedOr PartTab
  hash : List Nat
  deriving Repr, DecidableEq

/-- The unaligned content size of the pt field, before the 0x20 alignment of
build_segment_size: the blob length for Encrypted, and
0x20 + (records + 1) * 64 + user_bin length for Plain (this is the match
expression inside build_segment_size, prior to the u32 cast). -/
def PartitionTableImage.unaligned_size (img : PartitionTableImage) : Nat :=
  match img.pt with
  | .Encrypted data => data.length
  | .Plain data => 0x20 + (data.records.length + 1) * Record.binary_size + data.user_bin.length

/-- PartitionTableImage::build_segment_size: the unaligned content size as a
u32, plus a full alignment quantum 0x20 - (size % 0x20), computed in u32
arithmetic (hence the outer reduction modulo 2^32). -/
def PartitionTableImage.build_segment_size (img : PartitionTableImage) : Nat :=
  let new_size := img.unaligned_size % 2 ^ 32
  (new_size + (0x20 - new_size % 0x20)) % 2 ^ 32

/-- C2: build_segment_size is always a multiple of 0x20, and — whenever the
unaligned content size stays clear of u32 overflow — it equals the unaligned
size plus the full quantum 0x20 - size % 0x20, is strictly greater than the
unaligned size, and still adds a full 0x20 when the unaligned size is
already a multiple of 0x20. -/
theorem build_segment_size_aligned (img : PartitionTableImage) :
    img.build_segment_size % 0x20 = 0
    ∧ (img.unaligned_size + 0x20 < 2 ^ 32 →
        img.build_segment_size
            = img.unaligned_size + (0x20 - img.unaligned_size % 0x20)
          ∧ img.unaligned_size < img.build_segment_size
          ∧ (img.unaligned_size % 0x20 = 0 →
              img.build_segment_size = img.unaligned_size + 0x20)) := by
  have hdef : img.build_segment_size
      = (img.unaligned_size % 2 ^ 32
          + (0x20 - img.unaligned_size % 2 ^ 32 % 0x20)) % 2 ^ 32 := rfl
  rw [hdef]
  generalize img.unaligned_size = u
  constructor
  · omega
  · intro hlt
    omega

/-- Witness for the C2 theorem: a plain partition table with no records has
unaligned size 0x20 + 64 = 96 (a multiple of 0x20) and segment size 128. -/
theorem build_segment_size_aligned_witness :
    (PartitionTableImage.mk sampleKeyBlock sampleImageHeader
        (.Plain (PartTab.mk 0xFF 0xFF 0 0 0 (TrapConfig.mk false 0 0 0)
          (TrapConfig.mk false 0 0 0) .None (List.replicate 12 0xFF) [] []))
        (List.replicate 32 0xFF)).unaligned_size % 0x20 = 0
    ∧ (PartitionTableImage.mk sampleKeyBlock sampleImageHeader
        (.Plain (PartTab.mk 0xFF 0xFF 0 0 0 (TrapConfig.mk false 0 0 0)
          (TrapConfig.mk false 0 0 0) .None (List.replicate 12 0xFF) [] []))
        (List.replicate 32 0xFF)).build_segment_size
      = (PartitionTableImage.mk sampleKeyBlock sampleImageHeader
        (.Plain (PartTab.mk 0xFF 0xFF 0 0 0 (TrapConfig.mk false 0 0 0)
          (TrapConfig.mk false 0 0 0) .None (List.replicate 12 0xFF) [] []))
        (List.replicate 32 0xFF)).unaligned_size + 0x20 := by
  refine ⟨by decide, ?_⟩
  exact (build_segment_size_aligned _).2 (by decide) |>.2.2 (by decide)

/-- Concrete encrypted partition table image with a 32-byte blob, used to
refute C3. -/
def encPtImage32 : PartitionTableImage :=
  { keyblock := sampleKeyBlock, header := sampleImageHeader,
    pt := .Encrypted (List.replicate 32 0x41), hash := List.replicate 32 0xFF }

/-- C3 counterexample: for an Encrypted partition table the alignment step of
build_segment_size is applied as well — a 32-byte blob yields 64, not the
raw blob length 32 the claim asserts. -/
theorem build_segment_size_encrypted_not_raw :
    encPtImage32.pt = .Encrypted (List.replicate 32 0x41)
    ∧ (List.replicate (32 : Nat) 0x41).length = 32
    ∧ encPtImage32.build_segment_size = 64 := by
  refine ⟨rfl, by decide, by decide⟩

/-- C3 amended: for an Encrypted partition table, build_segment_size is the
blob length plus the full alignment quantum 0x20 - length % 0x20 (the same
always-add-0x20 rule as the Plain case), in particular strictly greater
than the blob length, whenever the blob length stays clear of u32
overflow. -/
theorem build_segment_size_encrypted (img : PartitionTableImage)
    (d : List Nat) (hpt : img.pt = .Encrypted d)
    (hlt : d.length + 0x20 < 2 ^ 32) :
    img.build_segment_size = d.length + (0x20 - d.length % 0x20)
    ∧ d.length < img.build_segment_size := by
  have hu : img.unaligned_size = d.length := by
    unfold PartitionTableImage.unaligned_size
    rw [hpt]
  have h := (build_segment_size_aligned img).2 (by omega)
  rw [hu] at h
  exact ⟨h.1, h.2.1⟩

/-- Witness for the amended C3 theorem at the 32-byte blob image. -/
theorem build_segment_size_encrypted_witness :
    encPtImage32.build_segment_size = 32 + (0x20 - 32 % 0x20)
    ∧ 32 < encPtImage32.build_segment_size := by
  have h := build_segment_size_encrypted encPtImage32 (List.replicate 32 0x41)
    rfl (by decide)
  simpa using h

/- ----------------------------------------------------------------- -/
/- C5 / C10: PartTab encoding                                        -/
/- ----------------------------------------------------------------- -/

/-- C5: encoding a PartTab with an empty record list fails with the
InvalidState error; with n at least 1 records it succeeds and the on-disk
record-count byte (offset 4) is (n - 1) as u8, hence 0 for exactly one
record. -/
theorem parttab_write_min_records (pt : PartTab) :
    (pt.records = [] →
      (pt.write_to).2 = some (.invalidState "Empty partition table"))
    ∧ (pt.records ≠ [] →
        (pt.write_to).2 = none
        ∧ (pt.write_to).1[4]? = some ((pt.records.length - 1) % 256)
        ∧ (pt.records.length = 1 → (pt.write_to).1[4]? = some 0)) := by
  constructor
  · intro h
    simp [PartTab.write_to, h]
  · intro h
    obtain ⟨r, rs, hr⟩ : ∃ r rs, pt.records = r :: rs := by
      cases hc : pt.records with
      | nil => exact absurd hc h
      | cons r rs => exact ⟨r, rs, rfl⟩
    refine ⟨?_, ?_, ?_⟩
    · simp [PartTab.write_to, hr]
    · simp [PartTab.write_to, hr]
    · intro hone
      rw [hr] at hone
      simp only [List.length_cons] at hone
      have hz : rs.length = 0 := by omega
      simp [PartTab.write_to, hr, hz]

/-- A one-record PartTab used as witness input. -/
def onePartTab : PartTab :=
  { rma_w_state := 0xFF, rma_ov_state := 0xFF, eFWV := 0, fw1_idx := 0,
    fw2_idx := 0, ota_trap := ⟨false, 0, 0, 0⟩, mp_trap := ⟨false, 0, 0, 0⟩,
    key_exp_op := .None, user_ext := List.replicate 12 0xFF,
    records := [sampleRecord], user_bin := [] }

/-- An empty PartTab used as witness input. -/
def emptyPartTab : PartTab :=
  { onePartTab with records := [] }

/-- Witness for the C5 theorem: the empty table errors, the one-record table
succeeds with count byte 0. -/
theorem parttab_write_min_records_witness :
    (emptyPartTab.write_to).2 = some (.invalidState "Empty partition table")
    ∧ (onePartTab.write_to).2 = none
    ∧ (onePartTab.write_to).1[4]? = some 0 :=
  ⟨(parttab_write_min_records emptyPartTab).1 rfl,
   ((parttab_write_min_records onePartTab).2 (by decide)).1,
   ((parttab_write_min_records onePartTab).2 (by decide)).2.2 rfl⟩

/-- C10: PartTab::write_to is not atomic on error — called on an empty record
list it returns the InvalidState error only after already having emitted the
first four bytes rma_w_state, rma_ov_state, eFWV and one zero byte. -/
theorem parttab_write_partial_on_error (pt : PartTab)
    (h : pt.records = [])
    (h1 : pt.rma_w_state < 256) (h2 : pt.rma_ov_state < 256)
    (h3 : pt.eFWV < 256) :
    pt.write_to = ([pt.rma_w_state, pt.rma_ov_state, pt.eFWV, 0x00],
      some (.invalidState "Empty partition table")) := by
  simp [PartTab.write_to, h, Nat.mod_eq_of_lt h1, Nat.mod_eq_of_lt h2,
    Nat.mod_eq_of_lt h3]

/-- Witness for the C10 theorem at the empty sample table. -/
theorem parttab_write_partial_on_error_witness :
    emptyPartTab.write_to = ([0xFF, 0xFF, 0, 0x00],
      some (.invalidState "Empty partition table")) :=
  parttab_write_partial_on_error emptyPartTab rfl (by decide) (by decide)
    (by decide)

/- ----------------------------------------------------------------- -/
/- C7: TrapConfig pack/unpack                                        -/
/- ----------------------------------------------------------------- -/

/-- C7: decoding a u16 into a TrapConfig is total (the function is defined on
every Nat) and extracts valid from bit 15, level from bit 8, port from bits
5-7 and pin from bits 0-4; packing is the exact inverse: for every
TrapConfig with in-range fields unpacking the packed value yields the same
struct, and the concrete struct valid/level 1/port 3/pin 17 packs to 0x8171
and unpacks from it. -/
theorem trapconfig_pack_unpack :
    (∀ t : TrapConfig, t.level ≤ 1 → t.port ≤ 7 → t.pin ≤ 31 →
      TrapConfig.fromU16 t.toU16 = t)
    ∧ TrapConfig.toU16 ⟨true, 1, 3, 17⟩ = 0x8171
    ∧ TrapConfig.fromU16 0x8171 = ⟨true, 1, 3, 17⟩ := by
  refine ⟨?_, by decide, by decide⟩
  rintro ⟨v, l, p, q⟩ hl hp hq
  simp only at hl hp hq
  cases v <;> interval_cases l <;> interval_cases p <;> interval_cases q <;>
    decide

/-- Witness for the C7 theorem at the concrete scenario input. -/
theorem trapconfig_pack_unpack_witness :
    TrapConfig.fromU16 (TrapConfig.toU16 ⟨true, 1, 3, 17⟩) = ⟨true, 1, 3, 17⟩ :=
  trapconfig_pack_unpack.1 ⟨true, 1, 3, 17⟩ (by decide) (by decide) (by decide)

/- ----------------------------------------------------------------- -/
/- C8: OTA image checksum (types/image/ota.rs)                       -/
/- ----------------------------------------------------------------- -/

/-- OTAImage::checksum_from_buffer: the sum of the byte values in u32
arithmetic (iterated wrapping addition). -/
def OTAImage.checksum_from_buffer (buf : List Nat) : Nat :=
  buf.foldl (fun acc b => (acc + b) % 2 ^ 32) 0

/-- OTAImage::checksum_from_stream: reads the whole stream (assumed to start
at position 0) and sums every byte except the last four. The Rust slice
buffer[..len - 4] panics when the stream is shorter than 4 bytes; the panic
is modelled by none. -/
def OTAImage.checksum_from_stream (input : List Nat) : Option Nat :=
  if 4 ≤ input.length then
    some (OTAImage.checksum_from_buffer (input.take (input.length - 4)))
  else
    none

theorem foldl_wrap_add (l : List Nat) (a : Nat) :
    l.foldl (fun acc b => (acc + b) % 2 ^ 32) (a % 2 ^ 32)
      = (a + l.sum) % 2 ^ 32 := by
  induction l generalizing a with
  | nil => simp
  | cons x xs ih =>
    simp only [List.foldl_cons, List.sum_cons, Nat.mod_add_mod]
    rw [ih (a + x), Nat.add_assoc]

/-- C8: for every input of length at least 4, checksum_from_stream is the
literal sum of all byte values except the last four, reduced modulo 2^32. -/
theorem checksum_is_byte_sum (bytes : List Nat) (h : 4 ≤ bytes.length) :
    OTAImage.checksum_from_stream bytes
      = some ((bytes.take (bytes.length - 4)).sum % 2 ^ 32) := by
  have hfold := foldl_wrap_add (bytes.take (bytes.length - 4)) 0
  simp only [Nat.zero_mod, Nat.zero_add] at hfold
  norm_num at hfold
  simp [OTAImage.checksum_from_stream, OTAImage.checksum_from_buffer, h, hfold]

/-- Witness for the C8 theorem at a concrete five-byte input. -/
theorem checksum_is_byte_sum_witness :
    OTAImage.checksum_from_stream [1, 2, 3, 4, 5]
      = some (([1, 2, 3, 4, 5].take (5 - 4)).sum % 2 ^ 32) :=
  checksum_is_byte_sum [1, 2, 3, 4, 5] (by decide)

/- ----------------------------------------------------------------- -/
/- Reader primitives                                                 -/
/- ----------------------------------------------------------------- -/

/-- read_exact of n bytes at position pos: fails with an I/O error when the
input is too short (a zero-length read succeeds even past the end, as for a
Rust cursor). -/
def readBytes (input : List Nat) (pos n : Nat) : Except Err (List Nat × Nat) :=
  if pos + n ≤ input.length then .ok ((input.drop pos).take n, pos + n)
  else if n = 0 then .ok ([], pos)
  else .error .eof

/-- read_u8. -/
def readU8 (input : List Nat) (pos : Nat) : Except Err (Nat × Nat) :=
  match readBytes input pos 1 with
  | .ok (l, p) => .ok (l.headD 0, p)
  | .error e => .error e

/-- read_u16 little-endian. -/
def readU16le (input : List Nat) (pos : Nat) : Except Err (Nat × Nat) :=
  match readBytes input pos 2 with
  | .ok (l, p) => .ok (leNat l, p)
  | .error e => .error e

/-- read_u32 little-endian. -/
def readU32le (input : List Nat) (pos : Nat) : Except Err (Nat × Nat) :=
  match readBytes input pos 4 with
  | .ok (l, p) => .ok (leNat l, p)
  | .error e => .error e

instance {ε α : Type} [DecidableEq ε] [DecidableEq α] :
    DecidableEq (Except ε α)
  | .ok a, .ok b =>
    if h : a = b then .isTrue (by rw [h])
    else .isFalse (by intro hh; cases hh; exact h rfl)
  | .error a, .error b =>
    if h : a = b then .isTrue (by rw [h])
    else .isFalse (by intro hh; cases hh; exact h rfl)
  | .ok _, .error _ => .isFalse (by intro hh; cases hh)
  | .error _, .ok _ => .isFalse (by intro hh; cases hh)

theorem bind_ok {α β : Type} {x : Except Err α} {f : α → Except Err β} {b : β}
    (h : x >>= f = .ok b) : ∃ a, x = .ok a ∧ f a = .ok b := by
  cases x with
  | error e => simp [Bind.bind, Except.bind] at h
  | ok a => exact ⟨a, rfl, by simpa [Bind.bind, Except.bind] using h⟩

theorem readBytes_ok {input : List Nat} {pos n : Nat} {l : List Nat} {p' : Nat}
    (h : readBytes input pos n = .ok (l, p')) :
    p' = pos + n ∧ l.length = n ∧ (n ≠ 0 → pos + n ≤ input.length) := by
  unfold readBytes at h
  split at h
  · rename_i hle
    cases h
    refine ⟨rfl, ?_, fun _ => hle⟩
    simp only [List.length_take, List.length_drop]
    omega
  · split at h
    · rename_i hn
      cases h
      subst hn
      simp
    · simp at h

theorem readU8_ok {input : List Nat} {pos v p' : Nat}
    (h : readU8 input pos = .ok (v, p')) :
    p' = pos + 1 ∧ pos + 1 ≤ input.length := by
  unfold readU8 at h
  split at h
  · rename_i l p hb
    cases h
    obtain ⟨h1, _, h3⟩ := readBytes_ok hb
    exact ⟨h1, h3 (by omega)⟩
  · simp at h

theorem readU16le_ok {input : List Nat} {pos v p' : Nat}
    (h : readU16le input pos = .ok (v, p')) :
    p' = pos + 2 ∧ pos + 2 ≤ input.length := by
  unfold readU16le at h
  split at h
  · rename_i l p hb
    cases h
    obtain ⟨h1, _, h3⟩ := readBytes_ok hb
    exact ⟨h1, h3 (by omega)⟩
  · simp at h

theorem readU32le_ok {input : List Nat} {pos v p' : Nat}
    (h : readU32le input pos = .ok (v, p')) :
    p' = pos + 4 ∧ pos + 4 ≤ input.length := by
  unfold readU32le at h
  split at h
  · rename_i l p hb
    cases h
    obtain ⟨h1, _, h3⟩ := readBytes_ok hb
    exact ⟨h1, h3 (by omega)⟩
  · simp at h

/- ----------------------------------------------------------------- -/
/- Record / PartTab readers (amebazii/types/image/pt.rs)             -/
/- ----------------------------------------------------------------- -/

/-- Record::read_from. The read_valid_data macro of the crate assigns the
target only when the buffer fails the is_valid_data check (all bytes 0xFF),
and that inverted condition is reproduced here verbatim. -/
def readRecord (input : List Nat) (pos : Nat) : Except Err (Record × Nat) := do
  let (sa, p1) ← readU32le input pos
  let (ln, p2) ← readU32le input p1
  let (tb, p3) ← readU8 input p2
  let pt ← PartitionType.tryFrom tb
  let (db, p4) ← readU8 input p3
  let (flag, p6) ← readU8 input (p4 + 6)
  if flag &&& 1 ≠ 0 then
    let (buf, p8) ← readBytes input (p6 + 15) 32
    let hk := if is_valid_data buf then none else some buf
    .ok (⟨sa, ln, pt, db != 0, hk⟩, p8)
  else
    .ok (⟨sa, ln, pt, db != 0, none⟩, p6 + 47)

/-- The PartTab record-reading loop: exactly k records in order. -/
def readRecords (input : List Nat) : Nat → Nat → Except Err (List Record × Nat)
  | 0, pos => .ok ([], pos)
  | k + 1, pos => do
    let (r, p1) ← readRecord input pos
    let (rs, p2) ← readRecords input k p1
    .ok (r :: rs, p2)

/-- PartTab::read_from: fixed header fields, the stored count byte num (the
loop then reads num + 1 records), the u32 user_len at offset 16, the 12-byte
user_ext, the records, and finally user_bin of user_len bytes where a
user_len above 0x100 is silently clamped to 0x100. -/
def readPartTab (input : List Nat) (pos : Nat) : Except Err (PartTab × Nat) := do
  let (rw, p1) ← readU8 input pos
  let (rov, p2) ← readU8 input p1
  let (efwv, p3) ← readU8 input p2
  let (num, p5) ← readU8 input (p3 + 1)
  let (f1, p6) ← readU8 input p5
  let (f2, p7) ← readU8 input p6
  let (ota, p9) ← readU16le input (p7 + 3)
  let (mp, p10) ← readU16le input p9
  let (keb, p12) ← readU8 input (p10 + 1)
  let keo ← KeyExportOp.tryFrom keb
  let (ul, p13) ← readU32le input p12
  let (uext, p14) ← readBytes input p13 12
  let (recs, p15) ← readRecords input (num + 1) p14
  let ul2 := if ul > 0x100 then 0x100 else ul
  let (ubin, p16) ← readBytes input p15 ul2
  .ok (⟨rw, rov, efwv, f1, f2, TrapConfig.fromU16 ota, TrapConfig.fromU16 mp,
        keo, uext, recs, ubin⟩, p16)

/-- C6: whenever PartTab decoding succeeds, the decoded user_bin has length
min(user_len, 256) where user_len is the u32 length field stored on disk at
offset 16; in particular a user_len above 256 still decodes successfully
with a 256-byte user_bin (the excess silently dropped). -/
theorem parttab_user_bin_clamped (input : List Nat) (pt : PartTab)
    (pe ul q : Nat)
    (hp : readPartTab input 0 = .ok (pt, pe))
    (hu : readU32le input 16 = .ok (ul, q)) :
    pt.user_bin.length = min ul 0x100
    ∧ (0x100 < ul → pt.user_bin.length = 0x100) := by
  unfold readPartTab at hp
  obtain ⟨⟨rw, p1⟩, h1, hp⟩ := bind_ok hp
  try dsimp only at hp
  obtain ⟨⟨rov, p2⟩, h2, hp⟩ := bind_ok hp
  try dsimp only at hp
  obtain ⟨⟨efwv, p3⟩, h3, hp⟩ := bind_ok hp
  try dsimp only at hp
  obtain ⟨⟨num, p5⟩, h5, hp⟩ := bind_ok hp
  try dsimp only at hp
  obtain ⟨⟨f1, p6⟩, h6, hp⟩ := bind_ok hp
  try dsimp only at hp
  obtain ⟨⟨f2, p7⟩, h7, hp⟩ := bind_ok hp
  try dsimp only at hp
  obtain ⟨⟨ota, p9⟩, h9, hp⟩ := bind_ok hp
  try dsimp only at hp
  obtain ⟨⟨mp', p10⟩, h10, hp⟩ := bind_ok hp
  try dsimp only at hp
  obtain ⟨⟨keb, p12⟩, h12, hp⟩ := bind_ok hp
  try dsimp only at hp
  obtain ⟨keo, hkeo, hp⟩ := bind_ok hp
  try dsimp only at hp
  obtain ⟨⟨ul', p13⟩, h13, hp⟩ := bind_ok hp
  try dsimp only at hp
  obtain ⟨⟨uext, p14⟩, h14, hp⟩ := bind_ok hp
  try dsimp only at hp
  obtain ⟨⟨recs, p15⟩, h15, hp⟩ := bind_ok hp
  try dsimp only at hp
  obtain ⟨⟨ubin, p16⟩, h16, hp⟩ := bind_ok hp
  try dsimp only at hp
  cases hp
  have e1 := (readU8_ok h1).1
  have e2 := (readU8_ok h2).1
  have e3 := (readU8_ok h3).1
  have e5 := (readU8_ok h5).1
  have e6 := (readU8_ok h6).1
  have e7 := (readU8_ok h7).1
  have e9 := (readU16le_ok h9).1
  have e10 := (readU16le_ok h10).1
  have e12 := (readU8_ok h12).1
  have hp12 : p12 = 16 := by omega
  rw [hp12, hu] at h13
  cases h13
  obtain ⟨_, hlen, _⟩ := readBytes_ok h16
  constructor
  · rw [hlen]
    split
    · omega
    · omega
  · intro hgt
    rw [hlen]
    split
    · rfl
    · omega

/-- Concrete on-disk partition table whose user_len field (offset 16) is
0x200, larger than the 0x100 cap: 32 header bytes, one 64-byte record and
256 user bytes. -/
def c6input : List Nat :=
  [0xFF, 0xFF, 0, 0, 0, 0, 0, 0, 0, 0, 0, 0, 0, 0, 0xFF, 0,
   0x00, 0x02, 0, 0]
  ++ List.replicate 12 0
  ++ ([0, 0, 0, 0, 0, 0, 0, 0, 0, 0] ++ List.replicate 6 0xFF ++ [0]
      ++ List.replicate 47 0xFF)
  ++ List.replicate 256 0xAA

/-- The PartTab value decoded from c6input. -/
def c6pt : PartTab :=
  { rma_w_state := 0xFF, rma_ov_state := 0xFF, eFWV := 0, fw1_idx := 0,
    fw2_idx := 0, ota_trap := ⟨false, 0, 0, 0⟩, mp_trap := ⟨false, 0, 0, 0⟩,
    key_exp_op := .None, user_ext := List.replicate 12 0,
    records := [⟨0, 0, .PartTab, false, none⟩],
    user_bin := List.replicate 256 0xAA }

set_option maxRecDepth 40000 in
/-- Witness for the C6 theorem: decoding c6input succeeds (as checked by the
hypothesis discharge) and its 0x200 user_len is clamped to a 256-byte
user_bin. -/
theorem parttab_user_bin_clamped_witness :
    c6pt.user_bin.length = min 0x200 0x100
    ∧ (0x100 < 0x200 → c6pt.user_bin.length = 0x100) :=
  parttab_user_bin_clamped c6input c6pt 352 0x200 20 (by rfl) (by rfl)

/- ----------------------------------------------------------------- -/
/- Section / SubImage / OTAImage (amebazii/types/section.rs,         -/
/- types/image/ota.rs)                                               -/
/- ----------------------------------------------------------------- -/

/-- A section of a sub-image: section header, entry header and raw data. -/
structure Section where
  header : SectionHeader
  entry_header : EntryHeader
  data : List Nat
  deriving Repr, DecidableEq

/-- Section::write_to at absolute stream position pos: header bytes, entry
header bytes, the data, and optional zero padding up to the next 0x20
boundary of the stream position. -/
def Section.write_to (s : Section) (pos : Nat) : List Nat :=
  let body := s.header.write_to ++ s.entry_header.write_to ++ s.data
  body ++ padTo (pos + body.length) 0x20 0x00

/-- The sequence writer for a plain section list (ToStream for
EncryptedOr of a Vec, Plain arm). -/
def writeSections : List Section → Nat → List Nat
  | [], _ => []
  | s :: rest, pos =>
    let w := s.write_to pos
    w ++ writeSections rest (pos + w.length)

/-- Section::build_aligned_length: entry header size plus data length,
rounded up to a 0x20 boundary (computed in u32). -/
def Section.build_aligned_length (s : Section) : Nat :=
  let length := EntryHeader.binary_size + s.data.length
  let alignment := length % 0x20
  if alignment = 0 then length % 2 ^ 32
  else (length + (0x20 - alignment)) % 2 ^ 32

/-- Section::build_aligned_size: the section header size plus the aligned
length (u32 arithmetic). -/
def Section.build_aligned_size (s : Section) : Nat :=
  (SectionHeader.binary_size + s.build_aligned_length) % 2 ^ 32

/-- A sub-image: image header, encrypted-or-plain FST, encrypted-or-plain
section list and the trailing hash. -/
structure SubImage where
  header : ImageHeader
  fst : EncryptedOr FST
  sections : EncryptedOr (List Section)
  hash : List Nat
  deriving Repr, DecidableEq

/-- SubImage::build_segment_size: FST size plus the aligned sizes of all
sections (or the encrypted blob length), in u32 arithmetic. The hash and
the image padding are not included. -/
def SubImage.build_segment_size (s : SubImage) : Nat :=
  (FST.binary_size
    + match s.sections with
      | .Plain secs => (secs.map Section.build_aligned_size).sum
      | .Encrypted d => d.length) % 2 ^ 32

/-- SubImage::write_to at absolute position pos: header, FST (or blob),
sections (or blob), hash, then optional 0x87 padding to 0x4000 when another
sub-image follows (header.has_next) and to 0x40 otherwise. -/
def SubImage.write_to (s : SubImage) (pos : Nat) : List Nat :=
  let hOut := s.header.write_to
  let fOut := match s.fst with
    | .Encrypted v => v
    | .Plain f => f.write_to
  let sOut := match s.sections with
    | .Encrypted v => v
    | .Plain secs => writeSections secs (pos + hOut.length + fOut.length)
  let body := hOut ++ fOut ++ sOut ++ s.hash
  body ++ padTo (pos + body.length)
    (if s.header.has_next then 0x4000 else 0x40) 0x87

/-- The sequence writer for the sub-image list of an OTA image. -/
def writeSubImages : List SubImage → Nat → List Nat
  | [], _ => []
  | s :: rest, pos =>
    let w := s.write_to pos
    w ++ writeSubImages rest (pos + w.length)

/-- An OTA firmware image: key block, five optional 32-byte public keys, the
chained sub-images and the optional trailing checksum. -/
structure OTAImage where
  keyblock : KeyBlock
  public_keys : List (Option (List Nat))
  subimages : List SubImage
  checksum : Option Nat
  deriving Repr, DecidableEq

/-- OTAImage::write_to (stream starting at position 0): key block, the five
public key slots (0xFF sentinel bytes when absent), all sub-images, and the
4-byte checksum word only when the checksum field is Some. -/
def OTAImage.write_to (img : OTAImage) : List Nat :=
  let a := img.keyblock.write_to
  let b := (img.public_keys.map (fun k => write_data k 32)).flatten
  let c := writeSubImages img.subimages (a.length + b.length)
  a ++ b ++ c
    ++ (match img.checksum with
        | some v => u32le v
        | none => [])

/- ----------------------------------------------------------------- -/
/- C4: SubImage::build_signature                                      -/
/- ----------------------------------------------------------------- -/

/-- The black-box hashing capability (MD5, SHA-256 and their keyed HMAC
variants), passed explicitly: the codec only ever calls hash(data) or
hmac(key, data). -/
structure HashOracle where
  md5 : List Nat → List Nat
  sha256 : List Nat → List Nat
  hmacMd5 : List Nat → List Nat → List Nat
  hmacSha256 : List Nat → List Nat → List Nat

/-- HashAlgo::compute_hash: MD5/SHA-256, keyed (HMAC) when a key is given;
the Other variant fails with UnsupportedHashAlgo (its u8 cast is 0xFF). -/
def HashAlgo.compute_hash (a : HashAlgo) (o : HashOracle) (buffer : List Nat)
    (key : Option (List Nat)) : Except Err (List Nat) :=
  match a with
  | .Sha256 =>
    match key with
    | some k => .ok (o.hmacSha256 k buffer)
    | none => .ok (o.sha256 buffer)
  | .Md5 =>
    match key with
    | some k => .ok (o.hmacMd5 k buffer)
    | none => .ok (o.md5 buffer)
  | .Other => .error (.unsupportedHashAlgo 0xFF)

/-- The bytes build_signature serializes into its scratch buffer: header,
FST and sections, written from position 0. -/
def SubImage.sig_bytes (s : SubImage) : List Nat :=
  let hOut := s.header.write_to
  let fOut := match s.fst with
    | .Encrypted v => v
    | .Plain f => f.write_to
  hOut ++ fOut
    ++ (match s.sections with
        | .Encrypted v => v
        | .Plain secs => writeSections secs (hOut.length + fOut.length))

/-- The scratch buffer of build_signature: a zero-filled vector of
ImageHeader::binary_size() + build_segment_size() bytes whose prefix is
overwritten through a cursor by the serialized header, FST and sections
(the cursor grows the buffer if the writes run past its end). -/
def SubImage.scratch (s : SubImage) : List Nat :=
  let size := ImageHeader.binary_size + s.build_segment_size
  let out := s.sig_bytes
  out ++ List.replicate (size - out.length) 0

/-- SubImage::build_signature: picks SHA-256 for an encrypted FST, the FST
hash_algo for a plain one; errors with NotImplemented only when the plain
FST has no hash algorithm; otherwise hashes the scratch buffer with the
optional key. -/
def SubImage.build_signature (o : HashOracle) (s : SubImage)
    (key : Option (List Nat)) : Except Err (List Nat) :=
  let hashAlgo : Option HashAlgo :=
    match s.fst with
    | .Encrypted _ => some .Sha256
    | .Plain f => f.hash_algo
  match hashAlgo with
  | some algo => algo.compute_hash o s.scratch key
  | none => .error (.notImplemented "SubImage::build_signature")

/-- A trivial concrete hash oracle used to evaluate the signature builder. -/
def constOracle : HashOracle :=
  { md5 := fun _ => List.replicate 16 0
    sha256 := fun _ => List.replicate 32 0
    hmacMd5 := fun _ _ => List.replicate 16 0
    hmacSha256 := fun _ _ => List.replicate 32 0 }

/-- A sub-image whose FST is the Encrypted variant. -/
def encFstSubImage : SubImage :=
  { header := sampleImageHeader, fst := .Encrypted (List.replicate 96 0),
    sections := .Encrypted [], hash := List.replicate 32 0xFF }

/-- C4 counterexample: for a SubImage whose fst is Encrypted,
build_signature does NOT return the NotImplemented error the claim asserts —
it succeeds, hashing with SHA-256 (the source maps an encrypted FST to
Some(HashAlgo::Sha256)). -/
theorem build_signature_encrypted_fst_ok :
    encFstSubImage.fst.is_encrypted = true
    ∧ SubImage.build_signature constOracle encFstSubImage none
        = .ok (List.replicate 32 0) :=
  ⟨rfl, rfl⟩

/-- C4 amended: build_signature returns NotImplemented exactly when the fst
is Plain with hash_algo None; an Encrypted fst selects SHA-256, a Plain fst
with Some algo selects that algo (so a selected Other algorithm yields the
UnsupportedHashAlgo error inside compute_hash); in the non-error cases the
hash (keyed by the optional key) is taken over the scratch buffer, whose
length is exactly ImageHeader::binary_size() + build_segment_size() whenever
the serialized content fits in it. -/
theorem build_signature_cases (o : HashOracle) (s : SubImage)
    (key : Option (List Nat)) :
    (∀ f, s.fst = .Plain f → f.hash_algo = none →
      SubImage.build_signature o s key
        = .error (.notImplemented "SubImage::build_signature"))
    ∧ (∀ b, s.fst = .Encrypted b →
        SubImage.build_signature o s key
          = HashAlgo.compute_hash .Sha256 o s.scratch key)
    ∧ (∀ f a, s.fst = .Plain f → f.hash_algo = some a →
        SubImage.build_signature o s key
          = HashAlgo.compute_hash a o s.scratch key)
    ∧ (s.sig_bytes.length ≤ ImageHeader.binary_size + s.build_segment_size →
        s.scratch.length = ImageHeader.binary_size + s.build_segment_size) := by
  refine ⟨?_, ?_, ?_, ?_⟩
  · intro f hf ha
    unfold SubImage.build_signature
    rw [hf]
    dsimp only
    rw [ha]
  · intro b hb
    unfold SubImage.build_signature
    rw [hb]
  · intro f a hf ha
    unfold SubImage.build_signature
    rw [hf]
    dsimp only
    rw [ha]
  · intro hle
    unfold SubImage.scratch
    simp only [List.length_append, List.length_replicate]
    omega

/-- A plain sub-image with the default FST (hash algo SHA-256). -/
def plainSubImage : SubImage :=
  { header := sampleImageHeader, fst := .Plain sampleFST,
    sections := .Plain [], hash := List.replicate 32 0xFF }

set_option maxRecDepth 40000 in
/-- Witness for the amended C4 theorem at a plain sub-image with algorithm
SHA-256 and no key. -/
theorem build_signature_cases_witness :
    SubImage.build_signature constOracle plainSubImage none
      = HashAlgo.compute_hash .Sha256 constOracle plainSubImage.scratch none
    ∧ plainSubImage.scratch.length
      = ImageHeader.binary_size + plainSubImage.build_segment_size :=
  ⟨(build_signature_cases constOracle plainSubImage none).2.2.1 sampleFST
      .Sha256 rfl rfl,
   (build_signature_cases constOracle plainSubImage none).2.2.2 (by decide)⟩

/- ----------------------------------------------------------------- -/
/- Readers for the OTA image stack                                   -/
/- ----------------------------------------------------------------- -/

/-- KeyBlock::read_from: two 32-byte keys. -/
def readKeyBlock (input : List Nat) (pos : Nat) :
    Except Err (KeyBlock × Nat) := do
  let (e, p1) ← readBytes input pos 32
  let (h, p2) ← readBytes input p1 32
  .ok (⟨e, h⟩, p2)

/-- The OTA public-key loop: k fixed 32-byte slots, Some only when the slot
passes the is_valid_data check. -/
def readPublicKeys (input : List Nat) :
    Nat → Nat → Except Err (List (Option (List Nat)) × Nat)
  | 0, pos => .ok ([], pos)
  | k + 1, pos => do
    let (key, p1) ← readBytes input pos 32
    let (rest, p2) ← readPublicKeys input k p1
    .ok ((if is_valid_data key then some key else none) :: rest, p2)

/-- ImageHeader::read_from: sizes, type/encrypt bytes, a skipped byte, the
flags byte, reserved skips, serial, then the user keys — read when the
corresponding flag bit is set, otherwise skipped (leaving the 0xFF
defaults). -/
def readImageHeader (input : List Nat) (pos : Nat) :
    Except Err (ImageHeader × Nat) := do
  let (seg, p1) ← readU32le input pos
  let (nxt, p2) ← readU32le input p1
  let (tb, p3) ← readU8 input p2
  let it ← ImageType.tryFrom tb
  let (eb, p4) ← readU8 input p3
  let (fl, p6) ← readU8 input (p4 + 1)
  let (ser, p7) ← readU32le input (p6 + 8)
  let p8 := p7 + 8
  let (k1, p9) ←
    if fl &&& 1 == 1 then readBytes input p8 32
    else .ok (List.replicate 32 0xFF, p8 + 32)
  let (k2, p10) ←
    if fl &&& 2 == 2 then readBytes input p9 32
    else .ok (List.replicate 32 0xFF, p9 + 32)
  .ok (⟨seg, nxt, it, eb != 0, ser, k1, k2⟩, p10)

/-- FST::read_from: both algorithm words are read (and validated) first, the
flags byte then clears enc_algo/hash_algo to None when the matching bit is
unset; the key-validity byte selects between reading cipher key and IV or
skipping, both variants consuming 96 bytes in total. -/
def readFST (input : List Nat) (pos : Nat) : Except Err (FST × Nat) := do
  let (eaw, p1) ← readU16le input pos
  let ea ← EncryptionAlgo.tryFrom eaw
  let (haw, p2) ← readU16le input p1
  let ha ← HashAlgo.tryFrom haw
  let (ps, p3) ← readU32le input p2
  let (pat, p4) ← readBytes input p3 8
  let (flb, p6) ← readU8 input (p4 + 4)
  let fl := flb &&& 3
  let (kv, p7) ← readU8 input p6
  if kv &&& 1 == 1 then
    let (key, p9) ← readBytes input (p7 + 10) 32
    let (iv, p10) ← readBytes input p9 16
    .ok (⟨if fl &&& 1 == 1 then some ea else none,
          if fl &&& 2 != 0 then some ha else none, ps, pat,
          some key, some iv⟩, p10 + 16)
  else
    .ok (⟨if fl &&& 1 == 1 then some ea else none,
          if fl &&& 2 != 0 then some ha else none, ps, pat,
          none, none⟩, p7 + 74)

/-- EntryHeader::read_from: three u32 fields (entry address with the
0xFFFFFFFF sentinel) and a 20-byte skip. -/
def readEntryHeader (input : List Nat) (pos : Nat) :
    Except Err (EntryHeader × Nat) := do
  let (ln, p1) ← readU32le input pos
  let (la, p2) ← readU32le input p1
  let (ea, p3) ← readU32le input p2
  .ok (⟨ln, la, if ea = 0xFFFFFFFF then none else some ea⟩, p3 + 20)

/-- SectionHeader::read_from: always consumes 96 bytes, branching on the
key/IV validity byte. -/
def readSectionHeader (input : List Nat) (pos : Nat) :
    Except Err (SectionHeader × Nat) := do
  let (ln, p1) ← readU32le input pos
  let (nxt, p2) ← readU32le input p1
  let (tb, p3) ← readU8 input p2
  let st ← SectionType.tryFrom tb
  let (sce, p4) ← readU8 input p3
  let (pgb, p5) ← readU8 input p4
  let pg ← XipPageRemapSize.tryFrom pgb
  let (blk, p6) ← readU8 input p5
  let (pat, p8) ← readBytes input (p6 + 4) 8
  let (kvb, p9) ← readU8 input p8
  let p10 := p9 + 7
  if kvb &&& 1 == 1 then
    let (key, p11) ← readBytes input p10 16
    let (iv, p12) ← readBytes input p11 16
    .ok (⟨ln, nxt, st, sce != 0, pg, blk, pat, key, iv⟩, p12 + 32)
  else
    .ok (⟨ln, nxt, st, sce != 0, pg, blk, pat,
          List.replicate 16 0xFF, List.replicate 16 0xFF⟩, p10 + 64)

/-- Section::read_from (the nested OTA variant): section header, entry
header, data of header.length - 0x20 bytes (the usize subtraction panics
when header.length is below 0x20), then skip_aligned to 0x20. -/
def readSection (input : List Nat) (pos : Nat) :
    Except Err (Section × Nat) := do
  let (hdr, p1) ← readSectionHeader input pos
  let (eh, p2) ← readEntryHeader input p1
  if hdr.length < 0x20 then
    .error (.panicked "section length below entry header size")
  else
    let (dat, p3) ← readBytes input p2 (hdr.length - 0x20)
    .ok (⟨hdr, eh, dat⟩, alignUp 0x20 p3)

/-- The SubImage section loop: always reads at least one section, and keeps
reading while the last section header has a next offset. The fuel argument
only bounds the number of iterations; callers pass more fuel than any
terminating run can use. -/
def readSectionsLoop (input : List Nat) :
    Nat → Nat → Except Err (List Section × Nat)
  | 0, _ => .error (.panicked "loop fuel exhausted")
  | fuel + 1, pos => do
    let (sec, p1) ← readSection input pos
    if sec.header.has_next then
      let (rest, p2) ← readSectionsLoop input fuel p1
      .ok (sec :: rest, p2)
    else
      .ok ([sec], p1)

/-- SubImage::read_from: image header; when is_encrypt an opaque 96-byte FST
blob and a segment_size - 96 byte section blob (usize underflow when
segment_size is below 96), else a plain FST and the section loop; then the
32-byte hash and skip_aligned to 0x4000 (another sub-image follows) or
0x40. -/
def readSubImage (input : List Nat) (fuel pos : Nat) :
    Except Err (SubImage × Nat) := do
  let (hdr, p1) ← readImageHeader input pos
  if hdr.is_encrypt then
    let (fstBlob, p2) ← readBytes input p1 FST.binary_size
    if hdr.segment_size < FST.binary_size then
      .error (.panicked "segment size below FST size")
    else
      let (secBlob, p3) ← readBytes input p2 (hdr.segment_size - FST.binary_size)
      let (hsh, p4) ← readBytes input p3 32
      .ok (⟨hdr, .Encrypted fstBlob, .Encrypted secBlob, hsh⟩,
           alignUp (if hdr.has_next then 0x4000 else 0x40) p4)
  else
    let (fst', p2) ← readFST input p1
    let (secs, p3) ← readSectionsLoop input fuel p2
    let (hsh, p4) ← readBytes input p3 32
    .ok (⟨hdr, .Plain fst', .Plain secs, hsh⟩,
         alignUp (if hdr.has_next then 0x4000 else 0x40) p4)

/-- The OTAImage sub-image loop: reads at least one sub-image and continues
while the last header has a next offset. -/
def readSubImagesLoop (input : List Nat) :
    Nat → Nat → Except Err (List SubImage × Nat)
  | 0, _ => .error (.panicked "loop fuel exhausted")
  | fuel + 1, pos => do
    let (s, p1) ← readSubImage input (input.length + 1) pos
    if s.header.has_next then
      let (rest, p2) ← readSubImagesLoop input fuel p1
      .ok (s :: rest, p2)
    else
      .ok ([s], p1)

/-- OTAImage::read_from (stream starting at position 0): key block, five
public-key slots, the sub-image loop, then UNCONDITIONALLY a 4-byte
checksum word (0xFFFFFFFF decodes to None). -/
def OTAImage.read_from (input : List Nat) : Except Err (OTAImage × Nat) := do
  let (kb, p1) ← readKeyBlock input 0
  let (keys, p2) ← readPublicKeys input 5 p1
  let (subs, p3) ← readSubImagesLoop input (input.length + 1) p2
  let (cks, p4) ← readU32le input p3
  .ok (⟨kb, keys, subs, if cks != 0xFFFFFFFF then some cks else none⟩, p4)

/-- The checksum-free core of OTAImage::write_to: key block, public keys and
sub-images, with no trailing checksum word. -/
def OTAImage.write_to_core (img : OTAImage) : List Nat :=
  let a := img.keyblock.write_to
  let b := (img.public_keys.map (fun k => write_data k 32)).flatten
  a ++ b ++ writeSubImages img.subimages (a.length + b.length)

/- ----------------------------------------------------------------- -/
/- Alignment and length lemmas                                       -/
/- ----------------------------------------------------------------- -/

theorem le_alignUp (a pos : Nat) : pos ≤ alignUp a pos := by
  unfold alignUp
  split <;> omega

theorem alignUp_dvd (a pos : Nat) (ha : 0 < a) : a ∣ alignUp a pos := by
  unfold alignUp
  split
  · exact Nat.dvd_of_mod_eq_zero (by assumption)
  · rename_i h
    have h1 : pos % a < a := Nat.mod_lt _ ha
    apply Nat.dvd_of_mod_eq_zero
    have h2 : (pos + (a - pos % a)) % a = (pos % a + (a - pos % a)) % a := by
      conv_lhs => rw [← Nat.mod_add_mod]
    rw [h2]
    have h3 : pos % a + (a - pos % a) = a := by omega
    rw [h3, Nat.mod_self]

theorem alignUp_le_of_dvd {a pos m : Nat} (ha : 0 < a) (hm : a ∣ m)
    (hpm : pos ≤ m) : alignUp a pos ≤ m := by
  unfold alignUp
  split
  · exact hpm
  · rename_i h
    obtain ⟨k, hk⟩ := hm
    have h1 : pos % a < a := Nat.mod_lt _ ha
    have hd : a * (pos / a) + pos % a = pos := Nat.div_add_mod pos a
    have hlt : a * (pos / a) < a * k := by omega
    have hk2 : pos / a < k := Nat.lt_of_mul_lt_mul_left hlt
    have hk3 : a * (pos / a + 1) ≤ a * k := Nat.mul_le_mul_left a hk2
    rw [Nat.mul_add, Nat.mul_one] at hk3
    omega

theorem alignUp_mono (a : Nat) (ha : 0 < a) {p q : Nat} (h : p ≤ q) :
    alignUp a p ≤ alignUp a q :=
  alignUp_le_of_dvd ha (alignUp_dvd a q ha) (le_trans h (le_alignUp a q))

theorem padTo_length (pos a fill : Nat) :
    (padTo pos a fill).length = alignUp a pos - pos := by
  unfold padTo alignUp
  split
  · simp
  · simp

theorem write_end_eq (w : List Nat) (pos a fill : Nat) :
    pos + (w ++ padTo (pos + w.length) a fill).length
      = alignUp a (pos + w.length) := by
  have h := le_alignUp a (pos + w.length)
  simp only [List.length_append, padTo_length]
  omega

theorem keyBlock_write_len (k : KeyBlock) (h1 : k.enc_pubkey.length = 32)
    (h2 : k.hash_pubkey.length = 32) : k.write_to.length = 64 := by
  simp [KeyBlock.write_to, h1, h2]

theorem imageHeader_write_len (h : ImageHeader)
    (h1 : h.user_key1.length = 32) (h2 : h.user_key2.length = 32) :
    h.write_to.length = 96 := by
  simp [ImageHeader.write_to, h1, h2]

theorem entryHeader_write_len (e : EntryHeader) : e.write_to.length = 32 := by
  simp [EntryHeader.write_to]

theorem sectionHeader_write_len (s : SectionHeader)
    (h1 : s.valid_pattern.length = 8) (h2 : s.xip_key.length = 16)
    (h3 : s.xip_iv.length = 16) : s.write_to.length = 64 := by
  simp [SectionHeader.write_to, h1, h2, h3]

theorem fst_write_len (f : FST) (h1 : f.valid_pattern.length = 8)
    (h2 : ∀ k, f.cipher_key = some k → k.length = 32)
    (h3 : ∀ iv, f.cipher_iv = some iv → iv.length = 16) :
    f.write_to.length = 96 := by
  have hk := write_data_length f.cipher_key 32 h2
  have hiv := write_data_length f.cipher_iv 16 h3
  simp [FST.write_to, h1, hk, hiv]

/- ----------------------------------------------------------------- -/
/- Reader consumption lemmas                                         -/
/- ----------------------------------------------------------------- -/

theorem readKeyBlock_ok {input : List Nat} {pos : Nat} {kb : KeyBlock}
    {p' : Nat} (h : readKeyBlock input pos = .ok (kb, p')) :
    p' = pos + 64 ∧ kb.enc_pubkey.length = 32 ∧ kb.hash_pubkey.length = 32 := by
  unfold readKeyBlock at h
  obtain ⟨⟨e, p1⟩, h1, h⟩ := bind_ok h
  try dsimp only at h
  obtain ⟨⟨hh, p2⟩, h2, h⟩ := bind_ok h
  try dsimp only at h
  cases h
  obtain ⟨e1, e2, _⟩ := readBytes_ok h1
  obtain ⟨e3, e4, _⟩ := readBytes_ok h2
  exact ⟨by omega, e2, e4⟩

theorem readPublicKeys_ok {input : List Nat} :
    ∀ {k pos : Nat} {keys : List (Option (List Nat))} {p' : Nat},
    readPublicKeys input k pos = .ok (keys, p') →
    p' = pos + 32 * k
    ∧ ((keys.map (fun o => write_data o 32)).flatten).length = 32 * k := by
  intro k
  induction k with
  | zero =>
    intro pos keys p' h
    unfold readPublicKeys at h
    cases h
    simp
  | succ n ih =>
    intro pos keys p' h
    unfold readPublicKeys at h
    obtain ⟨⟨key, p1⟩, h1, h⟩ := bind_ok h
    try dsimp only at h
    obtain ⟨⟨rest, p2⟩, h2, h⟩ := bind_ok h
    try dsimp only at h
    cases h
    obtain ⟨e1, e2, _⟩ := readBytes_ok h1
    obtain ⟨e3, e4⟩ := ih h2
    constructor
    · omega
    · simp only [List.map_cons, List.flatten_cons, List.length_append, e4]
      have : (write_data (if is_valid_data key then some key else none) 32).length
          = 32 := by
        split
        · simpa [write_data] using e2
        · simp [write_data]
      omega

theorem readImageHeader_ok {input : List Nat} {pos : Nat} {hdr : ImageHeader}
    {p' : Nat} (h : readImageHeader input pos = .ok (hdr, p')) :
    p' = pos + 96 ∧ hdr.user_key1.length = 32 ∧ hdr.user_key2.length = 32 := by
  unfold readImageHeader at h
  obtain ⟨⟨seg, p1⟩, h1, h⟩ := bind_ok h
  try dsimp only at h
  obtain ⟨⟨nxt, p2⟩, h2, h⟩ := bind_ok h
  try dsimp only at h
  obtain ⟨⟨tb, p3⟩, h3, h⟩ := bind_ok h
  try dsimp only at h
  obtain ⟨it, hit, h⟩ := bind_ok h
  try dsimp only at h
  obtain ⟨⟨eb, p4⟩, h4, h⟩ := bind_ok h
  try dsimp only at h
  obtain ⟨⟨fl, p6⟩, h6, h⟩ := bind_ok h
  try dsimp only at h
  obtain ⟨⟨ser, p7⟩, h7, h⟩ := bind_ok h
  try dsimp only at h
  have e1 := (readU32le_ok h1).1
  have e2 := (readU32le_ok h2).1
  have e3 := (readU8_ok h3).1
  have e4 := (readU8_ok h4).1
  have e6 := (readU8_ok h6).1
  have e7 := (readU32le_ok h7).1
  split at h
  · obtain ⟨⟨k1x, p9⟩, h9, h⟩ := bind_ok h
    try dsimp only at h
    obtain ⟨e9, e9l, _⟩ := readBytes_ok h9
    split at h
    · obtain ⟨⟨k2x, p10⟩, h10, h⟩ := bind_ok h
      try dsimp only at h
      obtain ⟨e10, e10l, _⟩ := readBytes_ok h10
      cases h
      exact ⟨by omega, e9l, e10l⟩
    · obtain ⟨⟨k2x, p10⟩, h10, h⟩ := bind_ok h
      try dsimp only at h
      cases h10
      cases h
      exact ⟨by omega, e9l, by simp⟩
  · obtain ⟨⟨k1x, p9⟩, h9, h⟩ := bind_ok h
    try dsimp only at h
    cases h9
    split at h
    · obtain ⟨⟨k2x, p10⟩, h10, h⟩ := bind_ok h
      try dsimp only at h
      obtain ⟨e10, e10l, _⟩ := readBytes_ok h10
      cases h
      exact ⟨by omega, by simp, e10l⟩
    · obtain ⟨⟨k2x, p10⟩, h10, h⟩ := bind_ok h
      try dsimp only at h
      cases h10
      cases h
      exact ⟨by omega, by simp, by simp⟩

theorem readFST_ok {input : List Nat} {pos : Nat} {f : FST} {p' : Nat}
    (h : readFST input pos = .ok (f, p')) :
    p' = pos + 96 ∧ f.valid_pattern.length = 8
    ∧ (∀ k, f.cipher_key = some k → k.length = 32)
    ∧ (∀ iv, f.cipher_iv = some iv → iv.length = 16) := by
  unfold readFST at h
  obtain ⟨⟨eaw, p1⟩, h1, h⟩ := bind_ok h
  try dsimp only at h
  obtain ⟨ea, hea, h⟩ := bind_ok h
  try dsimp only at h
  obtain ⟨⟨haw, p2⟩, h2, h⟩ := bind_ok h
  try dsimp only at h
  obtain ⟨ha, hha, h⟩ := bind_ok h
  try dsimp only at h
  obtain ⟨⟨ps, p3⟩, h3, h⟩ := bind_ok h
  try dsimp only at h
  obtain ⟨⟨pat, p4⟩, h4, h⟩ := bind_ok h
  try dsimp only at h
  obtain ⟨⟨flb, p6⟩, h6, h⟩ := bind_ok h
  try dsimp only at h
  obtain ⟨⟨kv, p7⟩, h7, h⟩ := bind_ok h
  try dsimp only at h
  have e1 := (readU16le_ok h1).1
  have e2 := (readU16le_ok h2).1
  have e3 := (readU32le_ok h3).1
  obtain ⟨e4, e4l, _⟩ := readBytes_ok h4
  have e6 := (readU8_ok h6).1
  have e7 := (readU8_ok h7).1
  split at h
  · obtain ⟨⟨key, p9⟩, h9, h⟩ := bind_ok h
    try dsimp only at h
    obtain ⟨⟨iv, p10⟩, h10, h⟩ := bind_ok h
    try dsimp only at h
    cases h
    obtain ⟨e9, e9l, _⟩ := readBytes_ok h9
    obtain ⟨e10, e10l, _⟩ := readBytes_ok h10
    refine ⟨by omega, e4l, ?_, ?_⟩
    · intro k hk
      cases hk
      exact e9l
    · intro iv2 hiv
      cases hiv
      exact e10l
  · cases h
    refine ⟨by omega, e4l, ?_, ?_⟩
    · intro k hk
      simp at hk
    · intro iv hiv
      simp at hiv

theorem readEntryHeader_ok {input : List Nat} {pos : Nat} {e : EntryHeader}
    {p' : Nat} (h : readEntryHeader input pos = .ok (e, p')) :
    p' = pos + 32 := by
  unfold readEntryHeader at h
  obtain ⟨⟨ln, p1⟩, h1, h⟩ := bind_ok h
  try dsimp only at h
  obtain ⟨⟨la, p2⟩, h2, h⟩ := bind_ok h
  try dsimp only at h
  obtain ⟨⟨ea, p3⟩, h3, h⟩ := bind_ok h
  try dsimp only at h
  cases h
  have e1 := (readU32le_ok h1).1
  have e2 := (readU32le_ok h2).1
  have e3 := (readU32le_ok h3).1
  omega

theorem readSectionHeader_ok {input : List Nat} {pos : Nat}
    {s : SectionHeader} {p' : Nat}
    (h : readSectionHeader input pos = .ok (s, p')) :
    p' = pos + 96 ∧ s.valid_pattern.length = 8 ∧ s.xip_key.length = 16
    ∧ s.xip_iv.length = 16 := by
  unfold readSectionHeader at h
  obtain ⟨⟨ln, p1⟩, h1, h⟩ := bind_ok h
  try dsimp only at h
  obtain ⟨⟨nxt, p2⟩, h2, h⟩ := bind_ok h
  try dsimp only at h
  obtain ⟨⟨tb, p3⟩, h3, h⟩ := bind_ok h
  try dsimp only at h
  obtain ⟨st, hst, h⟩ := bind_ok h
  try dsimp only at h
  obtain ⟨⟨sce, p4⟩, h4, h⟩ := bind_ok h
  try dsimp only at h
  obtain ⟨⟨pgb, p5⟩, h5, h⟩ := bind_ok h
  try dsimp only at h
  obtain ⟨pg, hpg, h⟩ := bind_ok h
  try dsimp only at h
  obtain ⟨⟨blk, p6⟩, h6, h⟩ := bind_ok h
  try dsimp only at h
  obtain ⟨⟨pat, p8⟩, h8, h⟩ := bind_ok h
  try dsimp only at h
  obtain ⟨⟨kvb, p9⟩, h9, h⟩ := bind_ok h
  try dsimp only at h
  have e1 := (readU32le_ok h1).1
  have e2 := (readU32le_ok h2).1
  have e3 := (readU8_ok h3).1
  have e4 := (readU8_ok h4).1
  have e5 := (readU8_ok h5).1
  have e6 := (readU8_ok h6).1
  obtain ⟨e8, e8l, _⟩ := readBytes_ok h8
  have e9 := (readU8_ok h9).1
  split at h
  · obtain ⟨⟨key, p11⟩, h11, h⟩ := bind_ok h
    try dsimp only at h
    obtain ⟨⟨iv, p12⟩, h12, h⟩ := bind_ok h
    try dsimp only at h
    cases h
    obtain ⟨e11, e11l, _⟩ := readBytes_ok h11
    obtain ⟨e12, e12l, _⟩ := readBytes_ok h12
    exact ⟨by omega, e8l, e11l, e12l⟩
  · cases h
    exact ⟨by omega, e8l, by simp, by simp⟩

/- ----------------------------------------------------------------- -/
/- Domination lemmas: a successful parse ends at or beyond the end   -/
/- of re-serializing the parsed value at any earlier start position  -/
/- ----------------------------------------------------------------- -/

theorem readSection_dom {input : List Nat} {pos : Nat} {sec : Section}
    {p' : Nat} (h : readSection input pos = .ok (sec, p')) :
    ∀ p, p ≤ pos → p + (sec.write_to p).length ≤ p' := by
  unfold readSection at h
  obtain ⟨⟨hdr, p1⟩, hh, h⟩ := bind_ok h
  try dsimp only at h
  obtain ⟨⟨eh, p2⟩, he, h⟩ := bind_ok h
  try dsimp only at h
  split at h
  · simp at h
  · obtain ⟨⟨dat, p3⟩, hd, h⟩ := bind_ok h
    try dsimp only at h
    cases h
    obtain ⟨eH, eHp, eHk, eHiv⟩ := readSectionHeader_ok hh
    have eE := readEntryHeader_ok he
    obtain ⟨eD, eDl, _⟩ := readBytes_ok hd
    intro p hp
    have hend : p + (Section.write_to ⟨hdr, eh, dat⟩ p).length
        = alignUp 0x20 (p + (hdr.write_to ++ eh.write_to ++ dat).length) := by
      unfold Section.write_to
      exact write_end_eq _ p 0x20 0x00
    rw [hend]
    apply alignUp_mono 0x20 (by norm_num)
    have hbl : (hdr.write_to ++ eh.write_to ++ dat).length
        = 96 + dat.length := by
      simp only [List.length_append,
        sectionHeader_write_len hdr eHp eHk eHiv, entryHeader_write_len]
    rw [hbl]
    omega

theorem readSectionsLoop_dom {input : List Nat} :
    ∀ (fuel : Nat) {pos : Nat} {secs : List Section} {p' : Nat},
    readSectionsLoop input fuel pos = .ok (secs, p') →
    ∀ p, p ≤ pos → p + (writeSections secs p).length ≤ p' := by
  intro fuel
  induction fuel with
  | zero =>
    intro pos secs p' h
    unfold readSectionsLoop at h
    simp at h
  | succ n ih =>
    intro pos secs p' h p hp
    unfold readSectionsLoop at h
    obtain ⟨⟨sec, p1⟩, hs, h⟩ := bind_ok h
    try dsimp only at h
    split at h
    · obtain ⟨⟨rest, p2⟩, hr, h⟩ := bind_ok h
      try dsimp only at h
      cases h
      have h1 := readSection_dom hs p hp
      have h2 := ih hr (p + (sec.write_to p).length) h1
      simp only [writeSections, List.length_append] at h2 ⊢
      omega
    · cases h
      have h1 := readSection_dom hs p hp
      simp only [writeSections, List.length_append, List.length_nil]
      omega

theorem readSubImage_dom {input : List Nat} {fuel pos : Nat} {S : SubImage}
    {p' : Nat} (h : readSubImage input fuel pos = .ok (S, p')) :
    ∀ p, p ≤ pos → p + (S.write_to p).length ≤ p' := by
  intro p hp
  unfold readSubImage at h
  obtain ⟨⟨hdr, p1⟩, hh, h⟩ := bind_ok h
  try dsimp only at h
  obtain ⟨eHp, eK1, eK2⟩ := readImageHeader_ok hh
  split at h
  · obtain ⟨⟨fstBlob, p2⟩, hf, h⟩ := bind_ok h
    try dsimp only at h
    split at h
    · simp at h
    · obtain ⟨⟨secBlob, p3⟩, hs, h⟩ := bind_ok h
      try dsimp only at h
      obtain ⟨⟨hsh, p4⟩, hhs, h⟩ := bind_ok h
      try dsimp only at h
      cases h
      obtain ⟨ef, efl, _⟩ := readBytes_ok hf
      obtain ⟨es, esl, _⟩ := readBytes_ok hs
      obtain ⟨eh4, ehl, _⟩ := readBytes_ok hhs
      simp only [FST.binary_size] at ef efl es esl
      have hend : p + (SubImage.write_to
            ⟨hdr, .Encrypted fstBlob, .Encrypted secBlob, hsh⟩ p).length
          = alignUp (if hdr.has_next then 0x4000 else 0x40)
              (p + (hdr.write_to ++ fstBlob ++ secBlob ++ hsh).length) := by
        unfold SubImage.write_to
        exact write_end_eq _ p _ 0x87
      rw [hend]
      have hA : 0 < (if hdr.has_next then 0x4000 else 0x40) := by
        split <;> norm_num
      apply alignUp_mono _ hA
      simp only [List.length_append, imageHeader_write_len hdr eK1 eK2]
      omega
  · obtain ⟨⟨fst', p2⟩, hf, h⟩ := bind_ok h
    try dsimp only at h
    obtain ⟨⟨secs, p3⟩, hsec, h⟩ := bind_ok h
    try dsimp only at h
    obtain ⟨⟨hsh, p4⟩, hhs, h⟩ := bind_ok h
    try dsimp only at h
    cases h
    obtain ⟨eF, eFp, eFk, eFiv⟩ := readFST_ok hf
    obtain ⟨eh4, ehl, _⟩ := readBytes_ok hhs
    have hfl : fst'.write_to.length = 96 := fst_write_len fst' eFp eFk eFiv
    have hhl : hdr.write_to.length = 96 := imageHeader_write_len hdr eK1 eK2
    have hsecs := readSectionsLoop_dom fuel hsec (p + 96 + 96) (by omega)
    have hend : p + (SubImage.write_to ⟨hdr, .Plain fst', .Plain secs, hsh⟩ p).length
        = alignUp (if hdr.has_next then 0x4000 else 0x40)
            (p + (hdr.write_to ++ fst'.write_to
              ++ writeSections secs (p + hdr.write_to.length + fst'.write_to.length)
              ++ hsh).length) := by
      unfold SubImage.write_to
      exact write_end_eq _ p _ 0x87
    rw [hhl, hfl] at hend
    rw [hend]
    have hA : 0 < (if hdr.has_next then 0x4000 else 0x40) := by
      split <;> norm_num
    apply alignUp_mono _ hA
    simp only [List.length_append, hhl, hfl]
    omega

theorem readSubImagesLoop_dom {input : List Nat} :
    ∀ (fuel : Nat) {pos : Nat} {subs : List SubImage} {p' : Nat},
    readSubImagesLoop input fuel pos = .ok (subs, p') →
    ∀ p, p ≤ pos → p + (writeSubImages subs p).length ≤ p' := by
  intro fuel
  induction fuel with
  | zero =>
    intro pos subs p' h
    unfold readSubImagesLoop at h
    simp at h
  | succ n ih =>
    intro pos subs p' h p hp
    unfold readSubImagesLoop at h
    obtain ⟨⟨s, p1⟩, hs, h⟩ := bind_ok h
    try dsimp only at h
    split at h
    · obtain ⟨⟨rest, p2⟩, hr, h⟩ := bind_ok h
      try dsimp only at h
      cases h
      have h1 := readSubImage_dom hs p hp
      have h2 := ih hr (p + (s.write_to p).length) h1
      simp only [writeSubImages, List.length_append] at h2 ⊢
      omega
    · cases h
      have h1 := readSubImage_dom hs p hp
      simp only [writeSubImages, List.length_append, List.length_nil]
      omega

/- ----------------------------------------------------------------- -/
/- C9: checksum write/read asymmetry                                 -/
/- ----------------------------------------------------------------- -/

/-- C9: (i) when the checksum field is None, OTAImage::write_to emits no
trailing checksum word at all (the output is exactly the checksum-free
core — no 0xFFFFFFFF sentinel); (ii) OTAImage::read_from unconditionally
consumes a 4-byte checksum word right after the sub-image loop; and
(iii) consequently decoding the exact bytes produced by encoding an image
with checksum None never reproduces that image: the decode either fails or
yields a different value. -/
theorem ota_checksum_write_read_asymmetry :
    (∀ img : OTAImage, img.checksum = none →
        img.write_to = img.write_to_core)
    ∧ (∀ (input : List Nat) (img : OTAImage) (pF : Nat),
        OTAImage.read_from input = .ok (img, pF) →
        ∃ subs p3 c,
          readSubImagesLoop input (input.length + 1) 224 = .ok (subs, p3)
          ∧ subs = img.subimages
          ∧ readU32le input p3 = .ok (c, pF)
          ∧ pF = p3 + 4
          ∧ img.checksum = (if c != 0xFFFFFFFF then some c else none))
    ∧ (∀ (img : OTAImage) (pos' : Nat), img.checksum = none →
        OTAImage.read_from img.write_to ≠ .ok (img, pos')) := by
  refine ⟨?_, ?_, ?_⟩
  · intro img h
    simp [OTAImage.write_to, OTAImage.write_to_core, h]
  · intro input img pF heq
    unfold OTAImage.read_from at heq
    obtain ⟨⟨kb, p1⟩, hkb, heq⟩ := bind_ok heq
    try dsimp only at heq
    obtain ⟨⟨keys, p2⟩, hkeys, heq⟩ := bind_ok heq
    try dsimp only at heq
    obtain ⟨⟨subs, p3⟩, hsubs, heq⟩ := bind_ok heq
    try dsimp only at heq
    obtain ⟨⟨cks, p4⟩, hcks, heq⟩ := bind_ok heq
    try dsimp only at heq
    cases heq
    have e1 := (readKeyBlock_ok hkb).1
    have e2 := (readPublicKeys_ok hkeys).1
    have hp2 : p2 = 224 := by omega
    rw [hp2] at hsubs
    exact ⟨subs, p3, cks, hsubs, rfl, hcks, (readU32le_ok hcks).1, rfl⟩
  · intro img pos' himg heq
    unfold OTAImage.read_from at heq
    obtain ⟨⟨kb, p1⟩, hkb, heq⟩ := bind_ok heq
    try dsimp only at heq
    obtain ⟨⟨keys, p2⟩, hkeys, heq⟩ := bind_ok heq
    try dsimp only at heq
    obtain ⟨⟨subs, p3⟩, hsubs, heq⟩ := bind_ok heq
    try dsimp only at heq
    obtain ⟨⟨cks, p4⟩, hcks, heq⟩ := bind_ok heq
    try dsimp only at heq
    cases heq
    dsimp only at himg
    obtain ⟨ekb, ekb1, ekb2⟩ := readKeyBlock_ok hkb
    obtain ⟨ekeys, ekeysl⟩ := readPublicKeys_ok hkeys
    have hp2 : p2 = 224 := by omega
    rw [hp2] at hsubs
    have hdom := readSubImagesLoop_dom _ hsubs 224 (le_refl 224)
    have hle := (readU32le_ok hcks).2
    have ha : kb.write_to.length = 64 := keyBlock_write_len kb ekb1 ekb2
    have hb : ((keys.map (fun k => write_data k 32)).flatten).length = 160 := by
      rw [ekeysl]
    have hwrite : (OTAImage.mk kb keys subs none).write_to
        = kb.write_to ++ (keys.map (fun k => write_data k 32)).flatten
          ++ writeSubImages subs
              (kb.write_to.length
                + ((keys.map (fun k => write_data k 32)).flatten).length)
          ++ ([] : List Nat) := rfl
    have hlen : ((OTAImage.mk kb keys subs
          (if cks != 0xFFFFFFFF then some cks else none)).write_to).length
        = 224 + (writeSubImages subs 224).length := by
      rw [himg, hwrite]
      simp only [List.length_append, ha, hb, List.length_nil]
      norm_num
    rw [hlen] at hle
    omega

/-- A minimal OTA image with no sub-images and checksum None. -/
def emptyOTA : OTAImage :=
  { keyblock := sampleKeyBlock,
    public_keys := [none, none, none, none, none],
    subimages := [], checksum := none }

/-- A concrete 452-byte OTA stream: 64 key-block bytes, five empty key
slots, one encrypted sub-image (segment size 96, no next) and a trailing
0xFFFFFFFF checksum word. -/
def c9input : List Nat :=
  List.replicate 224 0xFF
  ++ ([0x60, 0, 0, 0] ++ List.replicate 4 0xFF ++ [0, 1, 0, 0]
      ++ List.replicate 8 0xFF ++ List.replicate 4 0xFF
      ++ List.replicate 8 0xFF ++ List.replicate 64 0xFF)
  ++ List.replicate 96 0 ++ List.replicate 32 0xAB ++ List.replicate 4 0xFF

/-- The image header decoded from c9input. -/
def c9hdr : ImageHeader :=
  { segment_size := 96, next_offset := 0xFFFFFFFF, img_type := .Parttab,
    is_encrypt := true, serial := 0xFFFFFFFF,
    user_key1 := List.replicate 32 0xFF, user_key2 := List.replicate 32 0xFF }

/-- The sub-image decoded from c9input. -/
def c9sub : SubImage :=
  { header := c9hdr, fst := .Encrypted (List.replicate 96 0),
    sections := .Encrypted [], hash := List.replicate 32 0xAB }

/-- The key block decoded from c9input. -/
def c9kb : KeyBlock :=
  { enc_pubkey := List.replicate 32 0xFF, hash_pubkey := List.replicate 32 0xFF }

/-- The OTA image decoded from c9input. -/
def c9img : OTAImage :=
  { keyblock := c9kb, public_keys := [none, none, none, none, none],
    subimages := [c9sub], checksum := none }

set_option maxRecDepth 100000 in
/-- Witness for the C9 theorem: part (i) at the empty image, part (ii) at a
successfully decoded concrete 452-byte stream, part (iii) at the empty
image again. -/
theorem ota_checksum_write_read_asymmetry_witness :
    emptyOTA.write_to = emptyOTA.write_to_core
    ∧ (∃ subs p3 c,
        readSubImagesLoop c9input (c9input.length + 1) 224 = .ok (subs, p3)
        ∧ subs = c9img.subimages
        ∧ readU32le c9input p3 = .ok (c, 452)
        ∧ (452 : Nat) = p3 + 4
        ∧ c9img.checksum = (if c != 0xFFFFFFFF then some c else none))
    ∧ OTAImage.read_from emptyOTA.write_to ≠ .ok (emptyOTA, 0) :=
  ⟨ota_checksum_write_read_asymmetry.1 emptyOTA rfl,
   ota_checksum_write_read_asymmetry.2.1 c9input c9img 452 (by decide),
   ota_checksum_write_read_asymmetry.2.2 emptyOTA 0 rfl⟩
